import Mathlib

/-!
Shallow embedding of the `DatabaseMigrations` class of this repository
(the schema-migration engine: discovery, ledger, apply/rollback/refresh/status).

Modelling conventions:
* The Postgres `migrations` table is a `Store`: a flag for table existence, a
  flag for the presence of the `batch` column, the list of rows, and a logical
  clock supplying strictly increasing `executed_at` values (one SQL statement
  per insert; `CURRENT_TIMESTAMP` is modelled as the clock value).
* A SQL statement against a missing table fails (`MigErr.missingTable`); a
  statement touching the `batch` column while that column is absent fails
  (`MigErr.missingBatchColumn`) — as Postgres would report.
* A migration module's loading, class resolution and `up()`/`down()` call are
  opaque external effects: `Env.up`/`Env.down` give, per filename, whether the
  whole forward (resp. backward) attempt succeeds.  An `Event.up f` /
  `Event.down f` in the trace marks that the attempt on file `f` was made.
* `console.log`/`console.error` lines are collected (ANSI colour codes,
  box-drawing of the status table, padding and locale date formatting are
  stripped; quotes inside messages are dropped).
* The `finally { if (process.argv.includes(\x27-e\x27)) pool.end() }` blocks
  (process-level connection shutdown) are not modelled.
-/

namespace MigrationEngine

/-- A discovered migration file (interface `MigrationFile` of the source):
the filename, the 15-character `\d{8}T\d{6}` timestamp and the slug name. -/
structure MigrationFile where
  filename : String
  timestamp : String
  name : String
deriving Repr, DecidableEq

/-- One row of the `migrations` ledger table. -/
structure LedgerRecord where
  name : String
  executedAt : Nat
  batch : Nat
deriving Repr, DecidableEq

/-- The persistent store holding the ledger. -/
structure Store where
  tableExists : Bool
  hasBatchColumn : Bool
  records : List LedgerRecord
  clock : Nat
deriving Repr, DecidableEq

/-- Trace events: invocations of a migration file's forward (`up`) or
backward (`down`) operation. -/
inductive Event where
  | up : String → Event
  | down : String → Event
deriving Repr, DecidableEq

/-- Errors propagated (thrown) by the engine.  `upFailed` / `downFailed`
stand for the opaque failure thrown from inside a migration module. -/
inductive MigErr where
  | invalidFilename : String → MigErr
  | upFailed : String → MigErr
  | downFailed : String → MigErr
  | migrationNotFound : String → MigErr
  | missingTable : MigErr
  | missingBatchColumn : MigErr
deriving Repr, DecidableEq

/-- The external world: the migrations directory (existence and entries) and
the outcome of each file's opaque forward/backward operation. -/
structure Env where
  dirExists : Bool
  files : List String
  up : String → Bool
  down : String → Bool

/-! ### Discovery (`getMigrationFiles`) -/

/-- `s.endsWith suffix` of JS, on the character lists. -/
def hasSuffix (s suffix : String) : Bool :=
  let n := s.data.length
  let m := suffix.data.length
  decide (m ≤ n) && s.data.drop (n - m) == suffix.data

/-- JS string `<` (lexicographic; code points — identical to UTF-16 order on
the basic multilingual plane, where migration filenames live). -/
def charListLe : List Char → List Char → Bool
  | [], _ => true
  | _ :: _, [] => false
  | a :: as, b :: bs =>
    if a.toNat < b.toNat then true
    else if b.toNat < a.toNat then false
    else charListLe as bs

def strLe (a b : String) : Bool := charListLe a.data b.data

/-- Insertion step of `Array.prototype.sort()` (default string comparator). -/
def insertSorted (x : String) : List String → List String
  | [] => [x]
  | y :: ys => if strLe x y then x :: y :: ys else y :: insertSorted x ys

/-- `files.sort()` of the source (default lexicographic comparator). -/
def sortFiles : List String → List String
  | [] => []
  | x :: xs => insertSorted x (sortFiles xs)

/-- The character class matched by `.` in a JS regex without the `s` flag:
any character except the four ECMAScript line terminators U+000A (`\n`),
U+000D (`\r`), U+2028 (line separator) and U+2029 (paragraph separator). -/
def isJsDotChar (c : Char) : Bool :=
  c != '\n' && c != '\r' && c != '\u2028' && c != '\u2029'

/-- The regex `^(\d{8}T\d{6})_(.+)\.(ts|js)$` of `getMigrationFiles`,
returning the `MigrationFile` on a match (`timestamp` is the first capture,
`name` the greedy second capture, i.e. everything up to the final 3-character
extension; `.` does not match a line terminator). -/
def parseMigrationFile (filename : String) : Option MigrationFile :=
  let cs := filename.data
  if (cs.take 8).length == 8 && (cs.take 8).all Char.isDigit then
    match cs.drop 8 with
    | 'T' :: rest1 =>
      if (rest1.take 6).length == 6 && (rest1.take 6).all Char.isDigit then
        match rest1.drop 6 with
        | '_' :: rest =>
          if decide (4 ≤ rest.length) &&
             (rest.drop (rest.length - 3) == ['.', 't', 's'] ||
              rest.drop (rest.length - 3) == ['.', 'j', 's']) &&
             (rest.take (rest.length - 3)).all isJsDotChar then
            some { filename := filename,
                   timestamp := String.mk (cs.take 15),
                   name := String.mk (rest.take (rest.length - 3)) }
          else none
        | _ => none
      else none
    | _ => none
  else none

/-- `files.map(...)` with a throw on the first filename the regex rejects. -/
def parseAllFiles : List String → Except MigErr (List MigrationFile)
  | [] => .ok []
  | f :: fs =>
    match parseMigrationFile f with
    | none => .error (.invalidFilename f)
    | some m =>
      match parseAllFiles fs with
      | .error e => .error e
      | .ok ms => .ok (m :: ms)

/-- `getMigrationFiles`: if the migrations directory is missing it is created
(filesystem effect not modelled) and the empty list returned; otherwise the
entries are filtered to `.ts`/`.js` files, sorted, and parsed (throwing
`Invalid migration filename format` on the first failure). -/
def getMigrationFiles (env : Env) : Except MigErr (List MigrationFile) :=
  if env.dirExists then
    parseAllFiles (sortFiles (env.files.filter
      (fun f => hasSuffix f ".ts" || hasSuffix f ".js")))
  else .ok []

/-! ### Ledger primitives (SQL statements of the source) -/

/-- `SELECT COALESCE(MAX(batch), 0) ...` — the maximum batch over all rows. -/
def maxBatch (recs : List LedgerRecord) : Nat :=
  recs.foldr (fun r m => max r.batch m) 0

/-- Whether a row with this `migration_name` is present. -/
def recordsContain (s : Store) (name : String) : Bool :=
  s.records.any (fun r => r.name == name)

/-- `SELECT 1 FROM migrations WHERE migration_name = $1` (`isMigrationExecuted`). -/
def isMigrationExecuted (s : Store) (name : String) : Except MigErr Bool :=
  if s.tableExists then .ok (recordsContain s name) else .error .missingTable

/-- `INSERT ... ON CONFLICT (migration_name) DO NOTHING`: appends a fresh row
stamped with the clock, or leaves the store unchanged if the name is present. -/
def insertIfAbsent (s : Store) (name : String) (b : Nat) : Store :=
  if recordsContain s name then s
  else { s with
         records := s.records ++ [{ name := name, executedAt := s.clock, batch := b }],
         clock := s.clock + 1 }

/-- `markMigrationExecuted(migrationName, batch?)`: `if (batch)` (JS truthiness,
so `0`/`undefined` take the no-batch insert, whose row receives the column
default `1`). -/
def markMigrationExecuted (s : Store) (name : String) (batch? : Option Nat) :
    Except MigErr Store :=
  if s.tableExists then
    match batch? with
    | some b =>
      if b != 0 then
        if s.hasBatchColumn then .ok (insertIfAbsent s name b)
        else .error .missingBatchColumn
      else .ok (insertIfAbsent s name 1)
    | none => .ok (insertIfAbsent s name 1)
  else .error .missingTable

/-- `createMigrationsTable`: `CREATE TABLE IF NOT EXISTS migrations (id,
migration_name, executed_at)` — note the created table has NO `batch` column —
then `checkColumnExists('migrations','batch')` and, if absent, `ALTER TABLE
ADD COLUMN batch INTEGER DEFAULT 1` (existing rows receive the default) plus
`UPDATE migrations SET batch = 1 WHERE batch IS NULL`. -/
def createMigrationsTable (s : Store) : Store × List String :=
  let s1 := if s.tableExists then s
            else { s with tableExists := true, hasBatchColumn := false, records := [] }
  let s2 := if s1.hasBatchColumn then s1
            else { s1 with
                   hasBatchColumn := true,
                   records := s1.records.map (fun r => { r with batch := 1 }) }
  (s2, ["Migration table created/updated successfully"])

/-- Descending insertion by `executed_at` (for `ORDER BY executed_at DESC`). -/
def insertByExecDesc (r : LedgerRecord) : List LedgerRecord → List LedgerRecord
  | [] => [r]
  | x :: xs => if x.executedAt ≤ r.executedAt then r :: x :: xs
               else x :: insertByExecDesc r xs

/-- `ORDER BY executed_at DESC` over a row list. -/
def sortByExecDesc : List LedgerRecord → List LedgerRecord
  | [] => []
  | r :: rs => insertByExecDesc r (sortByExecDesc rs)

/-- `SELECT migration_name FROM migrations ORDER BY executed_at DESC`
(`getExecutedMigrations`). -/
def getExecutedMigrations (s : Store) : Except MigErr (List String) :=
  if s.tableExists then .ok ((sortByExecDesc s.records).map (·.name))
  else .error .missingTable

/-- `SELECT migration_name, executed_at FROM migrations ORDER BY executed_at
DESC` (`getExecutedMigrationsWithDetails`). -/
def getExecutedMigrationsWithDetails (s : Store) : Except MigErr (List LedgerRecord) :=
  if s.tableExists then .ok (sortByExecDesc s.records) else .error .missingTable

/-- `SELECT migration_name FROM migrations WHERE batch = (SELECT MAX(batch)
FROM migrations) ORDER BY executed_at DESC` (`getLastBatch`; on an empty table
the subquery is NULL and no row matches). -/
def getLastBatch (s : Store) : Except MigErr (List String) :=
  if s.tableExists then
    if s.hasBatchColumn then
      .ok ((sortByExecDesc (s.records.filter
        (fun r => r.batch == maxBatch s.records))).map (·.name))
    else .error .missingBatchColumn
  else .error .missingTable

/-- `SELECT COALESCE(MAX(batch), 0) + 1 as next_batch FROM migrations`
(`getNextBatchNumber`). -/
def getNextBatchNumber (s : Store) : Except MigErr Nat :=
  if s.tableExists then
    if s.hasBatchColumn then .ok (maxBatch s.records + 1)
    else .error .missingBatchColumn
  else .error .missingTable

/-- `DELETE FROM migrations WHERE migration_name = $1` (`removeMigrationRecord`). -/
def removeMigrationRecord (s : Store) (name : String) : Except MigErr Store :=
  if s.tableExists then
    .ok { s with records := s.records.filter (fun r => r.name != name) }
  else .error .missingTable

/-! ### Engine operations -/

deriving instance DecidableEq for Except

/-- Outcome of a public engine operation: the propagated result, the final
store, the trace of forward/backward invocations, and the console lines. -/
structure EngineOut where
  res : Except MigErr Unit
  store : Store
  events : List Event
  logs : List String
deriving Repr, DecidableEq

/-- Outcome of `executeMigration` (which never mutates the store). -/
structure ExecOut where
  res : Except MigErr Bool
  events : List Event
  logs : List String
deriving Repr, DecidableEq

/-- Outcome of the `for` loop of `runMigrations`, carrying the
`migrationsExecuted` counter. -/
structure LoopOut where
  res : Except MigErr Nat
  store : Store
  events : List Event
  logs : List String
deriving Repr, DecidableEq

/-- `executeMigration(migration)`: skip (returning `false`) when already in the
ledger; otherwise attempt the module load + `up()` (opaque: `env.up`), return
`true` on success and rethrow the failure otherwise. -/
def executeMigration (env : Env) (s : Store) (m : MigrationFile) : ExecOut :=
  match isMigrationExecuted s m.name with
  | .error e => ⟨.error e, [], []⟩
  | .ok true => ⟨.ok false, [], []⟩
  | .ok false =>
    if env.up m.filename then
      ⟨.ok true, [.up m.filename], ["Migrating: " ++ m.name, "Migrated: " ++ m.name]⟩
    else
      ⟨.error (.upFailed m.name), [.up m.filename],
       ["Migrating: " ++ m.name, "❌ Migration " ++ m.name ++ " failed"]⟩

/-- The `for (const migration of migrationFiles)` loop of `runMigrations`,
with the mutable `currentBatch : number | null` and `migrationsExecuted`. -/
def runLoop (env : Env) : List MigrationFile → Store → Option Nat → Nat → LoopOut
  | [], s, _, count => ⟨.ok count, s, [], []⟩
  | m :: ms, s, batch?, count =>
    let e := executeMigration env s m
    match e.res with
    | .error err => ⟨.error err, s, e.events, e.logs⟩
    | .ok false =>
      let rest := runLoop env ms s batch? count
      ⟨rest.res, rest.store, e.events ++ rest.events, e.logs ++ rest.logs⟩
    | .ok true =>
      let nb : Except MigErr Nat :=
        match batch? with
        | some b => .ok b
        | none => getNextBatchNumber s
      match nb with
      | .error err => ⟨.error err, s, e.events, e.logs⟩
      | .ok b =>
        match markMigrationExecuted s m.name (some b) with
        | .error err => ⟨.error err, s, e.events, e.logs⟩
        | .ok s' =>
          let rest := runLoop env ms s' (some b) (count + 1)
          ⟨rest.res, rest.store, e.events ++ rest.events, e.logs ++ rest.logs⟩

/-- `runMigrations()`: create the ledger table if absent, discover the files,
run the loop, then report `Nothing to migrate` or completion. -/
def runMigrations (env : Env) (s : Store) : EngineOut :=
  let create := if s.tableExists then (s, ([] : List String)) else createMigrationsTable s
  match getMigrationFiles env with
  | .error e => ⟨.error e, create.1, [], create.2 ++ ["❌ Migration failed"]⟩
  | .ok ms =>
    let L := runLoop env ms create.1 none 0
    match L.res with
    | .error e => ⟨.error e, L.store, L.events, create.2 ++ L.logs ++ ["❌ Migration failed"]⟩
    | .ok n =>
      ⟨.ok (), L.store, L.events,
       create.2 ++ L.logs ++
         [if n == 0 then "Nothing to migrate" else "✅ Migrations completed"]⟩

/-- `rollbackSingleMigration(migrationName)` (the internal primitive): resolve
the definition among the discovered files (throwing `Migration ... not found`
when absent), attempt the module load + `down()` (opaque: `env.down`), and on
success delete the ledger row.  Note: the ledger is never consulted first. -/
def rollbackSingleMigration (env : Env) (s : Store) (name : String) : EngineOut :=
  let l0 := ["Rolling back: " ++ name]
  match getMigrationFiles env with
  | .error e => ⟨.error e, s, [], l0⟩
  | .ok ms =>
    match ms.find? (fun m => m.name == name) with
    | none => ⟨.error (.migrationNotFound name), s, [], l0⟩
    | some m =>
      if env.down m.filename then
        match removeMigrationRecord s name with
        | .error e => ⟨.error e, s, [.down m.filename], l0⟩
        | .ok s' => ⟨.ok (), s', [.down m.filename], l0 ++ ["Rolled back: " ++ name]⟩
      else ⟨.error (.downFailed name), s, [.down m.filename], l0⟩

/-- A `for (const migrationName of ...)` loop calling
`rollbackSingleMigration` and stopping at the first failure. -/
def rollbackLoop (env : Env) : List String → Store → EngineOut
  | [], s => ⟨.ok (), s, [], []⟩
  | n :: ns, s =>
    let o := rollbackSingleMigration env s n
    match o.res with
    | .error e => ⟨.error e, o.store, o.events, o.logs⟩
    | .ok _ =>
      let rest := rollbackLoop env ns o.store
      ⟨rest.res, rest.store, o.events ++ rest.events, o.logs ++ rest.logs⟩

/-- `rollbackAllMigrations()`: no-op (with a message) when the table is
absent or the ledger empty; otherwise roll back every executed migration,
newest first. -/
def rollbackAllMigrations (env : Env) (s : Store) : EngineOut :=
  let l0 := ["Rolling back all migrations..."]
  if s.tableExists then
    match getExecutedMigrations s with
    | .error e => ⟨.error e, s, [], l0 ++ ["❌ Rollback all failed"]⟩
    | .ok [] => ⟨.ok (), s, [], l0 ++ ["No migrations to rollback"]⟩
    | .ok (n :: ns) =>
      let o := rollbackLoop env (n :: ns) s
      match o.res with
      | .error e => ⟨.error e, o.store, o.events, l0 ++ o.logs ++ ["❌ Rollback all failed"]⟩
      | .ok _ => ⟨.ok (), o.store, o.events, l0 ++ o.logs ++ ["✅ All migrations rolled back"]⟩
  else ⟨.ok (), s, [], l0 ++ ["Migration table does not exist. Nothing to rollback."]⟩

/-- `rollbackLastBatch()`: the rows of the maximal batch, newest first. -/
def rollbackLastBatch (env : Env) (s : Store) : EngineOut :=
  if s.tableExists then
    match getLastBatch s with
    | .error e => ⟨.error e, s, [], ["❌ Last batch rollback failed"]⟩
    | .ok [] => ⟨.ok (), s, [], ["No migrations to rollback"]⟩
    | .ok (n :: ns) =>
      let l0 := ["Rolling back last batch (" ++ toString (n :: ns).length ++ " migrations)..."]
      let o := rollbackLoop env (n :: ns) s
      match o.res with
      | .error e => ⟨.error e, o.store, o.events, l0 ++ o.logs ++ ["❌ Last batch rollback failed"]⟩
      | .ok _ => ⟨.ok (), o.store, o.events, l0 ++ o.logs ++ ["✅ Last batch rollback completed"]⟩
  else ⟨.ok (), s, [], ["Migration table does not exist. Nothing to rollback."]⟩

/-- The `for (let i = 0; i < steps; i++)` loop of `rollbackSteps`, breaking
(without error) once a batch fetch comes back empty. -/
def rollbackStepsLoop (env : Env) : Nat → Nat → Nat → Store → EngineOut
  | 0, _, _, s => ⟨.ok (), s, [], []⟩
  | fuel + 1, i, total, s =>
    match getLastBatch s with
    | .error e => ⟨.error e, s, [], []⟩
    | .ok [] =>
      ⟨.ok (), s, [],
       ["No more migrations to rollback (rolled back " ++ toString i ++ " batch(es))"]⟩
    | .ok (n :: ns) =>
      let l0 := ["Rolling back batch " ++ toString (i + 1) ++ " of " ++ toString total ++
                 " (" ++ toString (n :: ns).length ++ " migrations)..."]
      let o := rollbackLoop env (n :: ns) s
      match o.res with
      | .error e => ⟨.error e, o.store, o.events, l0 ++ o.logs⟩
      | .ok _ =>
        let rest := rollbackStepsLoop env fuel (i + 1) total o.store
        ⟨rest.res, rest.store, o.events ++ rest.events, l0 ++ o.logs ++ rest.logs⟩

/-- `rollbackSteps(steps)`. -/
def rollbackSteps (env : Env) (steps : Nat) (s : Store) : EngineOut :=
  if s.tableExists then
    let l0 := ["Rolling back last " ++ toString steps ++ " batch(es)..."]
    let o := rollbackStepsLoop env steps 0 steps s
    match o.res with
    | .error e => ⟨.error e, o.store, o.events, l0 ++ o.logs ++ ["❌ Step rollback failed"]⟩
    | .ok _ =>
      ⟨.ok (), o.store, o.events,
       l0 ++ o.logs ++ ["✅ Rollback of " ++ toString steps ++ " batch(es) completed"]⟩
  else ⟨.ok (), s, [], ["Migration table does not exist. Nothing to rollback."]⟩

/-- `rollbackSpecificMigration(migrationName)`: soft message (no error, no
backward call) when the name is not among the executed migrations. -/
def rollbackSpecificMigration (env : Env) (s : Store) (name : String) : EngineOut :=
  if s.tableExists then
    match getExecutedMigrations s with
    | .error e => ⟨.error e, s, [], ["❌ Specific rollback failed"]⟩
    | .ok names =>
      if names.contains name then
        let o := rollbackSingleMigration env s name
        match o.res with
        | .error e => ⟨.error e, o.store, o.events, o.logs ++ ["❌ Specific rollback failed"]⟩
        | .ok _ => ⟨.ok (), o.store, o.events, o.logs ++ ["✅ Migration rollback completed"]⟩
      else ⟨.ok (), s, [], ["Migration " ++ name ++ " was not executed or not found"]⟩
  else ⟨.ok (), s, [], ["Migration table does not exist. Nothing to rollback."]⟩

/-- `refreshMigrations()`: `rollbackAllMigrations()` then `runMigrations()`,
propagating a rollback failure without starting the apply phase. -/
def refreshMigrations (env : Env) (s : Store) : EngineOut :=
  let l0 := ["🔄 Refreshing migrations (rollback all + re-run)..."]
  let r := rollbackAllMigrations env s
  match r.res with
  | .error e => ⟨.error e, r.store, r.events, l0 ++ r.logs ++ ["❌ Migration refresh failed"]⟩
  | .ok _ =>
    let o := runMigrations env r.store
    match o.res with
    | .error e =>
      ⟨.error e, o.store, r.events ++ o.events,
       l0 ++ r.logs ++ ["🔄 Re-running all migrations..."] ++ o.logs ++
         ["❌ Migration refresh failed"]⟩
    | .ok _ =>
      ⟨.ok (), o.store, r.events ++ o.events,
       l0 ++ r.logs ++ ["🔄 Re-running all migrations..."] ++ o.logs ++
         ["✅ Migration refresh completed"]⟩

/-- `displayMigrationsTable` (box drawing, padding and locale dates stripped:
one line per row plus the header and the trailing count). -/
def displayMigrationsTable (recs : List LedgerRecord) : List String :=
  ["Migration History"] ++
    recs.map (fun r => r.name ++ " | " ++ toString r.executedAt) ++
    ["Total migrations executed: " ++ toString recs.length]

/-- `showMigrationStatus()`: read-only projection of the ledger. -/
def showMigrationStatus (s : Store) : EngineOut :=
  if s.tableExists then
    match getExecutedMigrationsWithDetails s with
    | .error e => ⟨.error e, s, [], ["❌ Status check failed"]⟩
    | .ok [] => ⟨.ok (), s, [], ["No migrations executed yet"]⟩
    | .ok (r :: rs) => ⟨.ok (), s, [], displayMigrationsTable (r :: rs)⟩
  else
    ⟨.ok (), s, [],
     ["Migration table does not exist. Run npm run migrate:run to create it."]⟩

/-! ### Basic lemmas about the ledger primitives -/

theorem insertIfAbsent_tableExists (s : Store) (n : String) (b : Nat) :
    (insertIfAbsent s n b).tableExists = s.tableExists := by
  unfold insertIfAbsent; split <;> rfl

theorem insertIfAbsent_hasBatchColumn (s : Store) (n : String) (b : Nat) :
    (insertIfAbsent s n b).hasBatchColumn = s.hasBatchColumn := by
  unfold insertIfAbsent; split <;> rfl

theorem recordsContain_insertIfAbsent_self (s : Store) (n : String) (b : Nat) :
    recordsContain (insertIfAbsent s n b) n = true := by
  unfold insertIfAbsent
  split
  · assumption
  · simp [recordsContain]

theorem recordsContain_insertIfAbsent_mono (s : Store) (n m : String) (b : Nat)
    (h : recordsContain s m = true) :
    recordsContain (insertIfAbsent s n b) m = true := by
  unfold insertIfAbsent
  split
  · exact h
  · unfold recordsContain at h ⊢
    simp only [List.any_append, h, Bool.true_or]

theorem recordsContain_insertIfAbsent_ne (s : Store) (n m : String) (b : Nat)
    (h : m ≠ n) :
    recordsContain (insertIfAbsent s n b) m = recordsContain s m := by
  unfold insertIfAbsent
  split
  · rfl
  · unfold recordsContain
    simp [List.any_append, beq_eq_false_iff_ne, Ne.symm h]

theorem markMigrationExecuted_ok_eq (s : Store) (n : String) (b : Nat)
    (hT : s.tableExists = true) (hC : s.hasBatchColumn = true) (hb : b ≠ 0) :
    markMigrationExecuted s n (some b) = .ok (insertIfAbsent s n b) := by
  simp [markMigrationExecuted, hT, hC, hb]

theorem markMigrationExecuted_ok_flags (s : Store) (n : String) (b? : Option Nat)
    (s' : Store) (h : markMigrationExecuted s n b? = .ok s') :
    s'.tableExists = s.tableExists ∧ s'.hasBatchColumn = s.hasBatchColumn := by
  unfold markMigrationExecuted at h
  split at h
  · split at h
    · split at h
      · split at h
        · cases h
          exact ⟨insertIfAbsent_tableExists .., insertIfAbsent_hasBatchColumn ..⟩
        · cases h
      · cases h
        exact ⟨insertIfAbsent_tableExists .., insertIfAbsent_hasBatchColumn ..⟩
    · cases h
      exact ⟨insertIfAbsent_tableExists .., insertIfAbsent_hasBatchColumn ..⟩
  · cases h

/-! ### Reductions of `executeMigration` -/

theorem executeMigration_applied (env : Env) (s : Store) (m : MigrationFile)
    (hT : s.tableExists = true) (ha : recordsContain s m.name = true) :
    executeMigration env s m = ⟨.ok false, [], []⟩ := by
  simp [executeMigration, isMigrationExecuted, hT, ha]

theorem executeMigration_pending_ok (env : Env) (s : Store) (m : MigrationFile)
    (hT : s.tableExists = true) (ha : recordsContain s m.name = false)
    (hu : env.up m.filename = true) :
    executeMigration env s m =
      ⟨.ok true, [.up m.filename], ["Migrating: " ++ m.name, "Migrated: " ++ m.name]⟩ := by
  simp [executeMigration, isMigrationExecuted, hT, ha, hu]

theorem executeMigration_pending_fail (env : Env) (s : Store) (m : MigrationFile)
    (hT : s.tableExists = true) (ha : recordsContain s m.name = false)
    (hu : env.up m.filename = false) :
    executeMigration env s m =
      ⟨.error (.upFailed m.name), [.up m.filename],
       ["Migrating: " ++ m.name, "❌ Migration " ++ m.name ++ " failed"]⟩ := by
  simp [executeMigration, isMigrationExecuted, hT, ha, hu]

theorem markMigrationExecuted_ok_shape (s : Store) (n : String) (b? : Option Nat)
    (s' : Store) (h : markMigrationExecuted s n b? = .ok s') :
    ∃ b, s' = insertIfAbsent s n b := by
  unfold markMigrationExecuted at h
  split at h
  · split at h
    · split at h
      · split at h
        · exact ⟨_, (Except.ok.inj h).symm⟩
        · cases h
      · exact ⟨1, (Except.ok.inj h).symm⟩
    · exact ⟨1, (Except.ok.inj h).symm⟩
  · cases h

/-! ### Structural lemmas about the `runMigrations` loop -/

theorem runLoop_store_flags (env : Env) (ms : List MigrationFile) :
    ∀ (s : Store) (b? : Option Nat) (c : Nat),
      (runLoop env ms s b? c).store.tableExists = s.tableExists ∧
      (runLoop env ms s b? c).store.hasBatchColumn = s.hasBatchColumn := by
  induction ms with
  | nil => exact fun s b? c => ⟨rfl, rfl⟩
  | cons m ms ih =>
    intro s b? c
    simp only [runLoop]
    cases hres : (executeMigration env s m).res with
    | error err => simp
    | ok wasExec =>
      cases wasExec with
      | false => simpa using ih s b? c
      | true =>
        cases hnb : (match b? with
                      | some b => (Except.ok b : Except MigErr Nat)
                      | none => getNextBatchNumber s) with
        | error e => simp
        | ok b =>
          cases hmk : markMigrationExecuted s m.name (some b) with
          | error e => simp [hmk]
          | ok s' =>
            obtain ⟨b', rfl⟩ := markMigrationExecuted_ok_shape s m.name (some b) s' hmk
            simp only [hmk]
            have h1 := (ih (insertIfAbsent s m.name b') (some b) (c + 1)).1
            have h2 := (ih (insertIfAbsent s m.name b') (some b) (c + 1)).2
            rw [h1, h2]
            exact ⟨insertIfAbsent_tableExists .., insertIfAbsent_hasBatchColumn ..⟩

theorem runLoop_recordsContain_mono (env : Env) (ms : List MigrationFile) :
    ∀ (s : Store) (b? : Option Nat) (c : Nat) (n : String),
      recordsContain s n = true →
      recordsContain (runLoop env ms s b? c).store n = true := by
  induction ms with
  | nil => exact fun s b? c n h => h
  | cons m ms ih =>
    intro s b? c n h
    simp only [runLoop]
    cases hres : (executeMigration env s m).res with
    | error err => simpa using h
    | ok wasExec =>
      cases wasExec with
      | false => simpa using ih s b? c n h
      | true =>
        cases hnb : (match b? with
                      | some b => (Except.ok b : Except MigErr Nat)
                      | none => getNextBatchNumber s) with
        | error e => simpa using h
        | ok b =>
          cases hmk : markMigrationExecuted s m.name (some b) with
          | error e => simpa [hmk] using h
          | ok s' =>
            obtain ⟨b', rfl⟩ := markMigrationExecuted_ok_shape s m.name (some b) s' hmk
            simp only [hmk]
            simpa using ih (insertIfAbsent s m.name b') (some b) (c + 1) n
              (recordsContain_insertIfAbsent_mono s m.name n b' h)

theorem runLoop_failure (env : Env) (mf : MigrationFile) (post : List MigrationFile)
    (hfail : env.up mf.filename = false) :
    ∀ (pre : List MigrationFile) (s : Store) (b? : Option Nat) (c : Nat),
      s.tableExists = true → s.hasBatchColumn = true →
      (∀ m ∈ pre, recordsContain s m.name = true ∨ env.up m.filename = true) →
      recordsContain s mf.name = false →
      (∀ m ∈ pre, m.name ≠ mf.name) →
      (∀ b, b? = some b → b ≠ 0) →
      (runLoop env (pre ++ mf :: post) s b? c).res = .error (.upFailed mf.name) ∧
      (∃ evs, (runLoop env (pre ++ mf :: post) s b? c).events = evs ++ [Event.up mf.filename] ∧
        ∀ e ∈ evs, ∃ m ∈ pre, e = Event.up m.filename) ∧
      (∀ m ∈ pre, recordsContain (runLoop env (pre ++ mf :: post) s b? c).store m.name = true) ∧
      recordsContain (runLoop env (pre ++ mf :: post) s b? c).store mf.name = false := by
  intro pre
  induction pre with
  | nil =>
    intro s b? c hT hC _ hpend _ _
    simp only [List.nil_append, runLoop]
    rw [executeMigration_pending_fail env s mf hT hpend hfail]
    refine ⟨rfl, ⟨[], rfl, by simp⟩, by simp, hpend⟩
  | cons m pre ih =>
    intro s b? c hT hC hpre hpend hfresh hb
    simp only [List.cons_append, runLoop]
    cases happ : recordsContain s m.name with
    | true =>
      rw [executeMigration_applied env s m hT happ]
      obtain ⟨ihres, ⟨evs, hevseq, hevsin⟩, ihpre, ihmf⟩ :=
        ih s b? c hT hC (fun m' hm' => hpre m' (List.mem_cons_of_mem m hm'))
          hpend (fun m' hm' => hfresh m' (List.mem_cons_of_mem m hm')) hb
      refine ⟨ihres, ⟨evs, by simpa using hevseq, ?_⟩, ?_, ihmf⟩
      · intro e he
        obtain ⟨m', hm', he'⟩ := hevsin e he
        exact ⟨m', List.mem_cons_of_mem m hm', he'⟩
      · intro m' hm'
        rcases List.mem_cons.mp hm' with rfl | hm'
        · exact runLoop_recordsContain_mono env (pre ++ mf :: post) s b? c m'.name happ
        · exact ihpre m' hm'
    | false =>
      have hup : env.up m.filename = true := by
        rcases hpre m (List.mem_cons_self m pre) with h | h
        · rw [happ] at h; cases h
        · exact h
      rw [executeMigration_pending_ok env s m hT happ hup]
      dsimp only
      obtain ⟨b, hnb, hbne⟩ :
          ∃ b, (match b? with
                | some b => (Except.ok b : Except MigErr Nat)
                | none => getNextBatchNumber s) = .ok b ∧ b ≠ 0 := by
        cases b? with
        | some b => exact ⟨b, rfl, hb b rfl⟩
        | none =>
          exact ⟨maxBatch s.records + 1, by simp [getNextBatchNumber, hT, hC],
            Nat.succ_ne_zero _⟩
      rw [hnb]
      dsimp only
      rw [markMigrationExecuted_ok_eq s m.name b hT hC hbne]
      dsimp only
      have hTi : (insertIfAbsent s m.name b).tableExists = true := by
        rw [insertIfAbsent_tableExists]; exact hT
      have hCi : (insertIfAbsent s m.name b).hasBatchColumn = true := by
        rw [insertIfAbsent_hasBatchColumn]; exact hC
      have hprei : ∀ m' ∈ pre,
          recordsContain (insertIfAbsent s m.name b) m'.name = true ∨
            env.up m'.filename = true := by
        intro m' hm'
        rcases hpre m' (List.mem_cons_of_mem m hm') with h | h
        · exact Or.inl (recordsContain_insertIfAbsent_mono s m.name m'.name b h)
        · exact Or.inr h
      have hpendi : recordsContain (insertIfAbsent s m.name b) mf.name = false := by
        rw [recordsContain_insertIfAbsent_ne s m.name mf.name b
          (Ne.symm (hfresh m (List.mem_cons_self m pre)))]
        exact hpend
      obtain ⟨ihres, ⟨evs, hevseq, hevsin⟩, ihpre, ihmf⟩ :=
        ih (insertIfAbsent s m.name b) (some b) (c + 1) hTi hCi hprei hpendi
          (fun m' hm' => hfresh m' (List.mem_cons_of_mem m hm'))
          (fun b'' hb'' => by cases hb''; exact hbne)
      refine ⟨ihres, ⟨Event.up m.filename :: evs, ?_, ?_⟩, ?_, ihmf⟩
      · simp [hevseq]
      · intro e he
        rcases List.mem_cons.mp he with rfl | he
        · exact ⟨m, List.mem_cons_self m pre, rfl⟩
        · obtain ⟨m', hm', he'⟩ := hevsin e he
          exact ⟨m', List.mem_cons_of_mem m hm', he'⟩
      · intro m' hm'
        rcases List.mem_cons.mp hm' with rfl | hm'
        · exact runLoop_recordsContain_mono env (pre ++ mf :: post)
            (insertIfAbsent s m'.name b) (some b) (c + 1) m'.name
            (recordsContain_insertIfAbsent_self s m'.name b)
        · exact ihpre m' hm'

/-- Reduction of `runMigrations` when the ledger table already exists and
discovery succeeds. -/
theorem runMigrations_reduce (env : Env) (s : Store) (hT : s.tableExists = true)
    (ms : List MigrationFile) (hms : getMigrationFiles env = .ok ms) :
    runMigrations env s =
      match (runLoop env ms s none 0).res with
      | .error e => ⟨.error e, (runLoop env ms s none 0).store,
                     (runLoop env ms s none 0).events,
                     (runLoop env ms s none 0).logs ++ ["❌ Migration failed"]⟩
      | .ok n => ⟨.ok (), (runLoop env ms s none 0).store,
                  (runLoop env ms s none 0).events,
                  (runLoop env ms s none 0).logs ++
                    [if n == 0 then "Nothing to migrate" else "✅ Migrations completed"]⟩ := by
  unfold runMigrations
  rw [hms, hT]
  cases hres : (runLoop env ms s none 0).res <;> simp [hres]

/-- C1: if, during a single `runMigrations()` invocation, the forward
operation of some migration (`mf`, the first pending one whose `up` fails)
fails, then the failure propagates to the caller, no later migration's
forward operation is invoked in that invocation, and afterwards the ledger
contains a record for every migration earlier in that same invocation (in
particular every one newly applied there) and no record for the failed
migration. -/
theorem runMigrations_partial_failure (env : Env) (s : Store)
    (ms pre post : List MigrationFile) (mf : MigrationFile)
    (hT : s.tableExists = true) (hC : s.hasBatchColumn = true)
    (hms : getMigrationFiles env = .ok ms)
    (hsplit : ms = pre ++ mf :: post)
    (hnodup : (ms.map (fun m => m.filename)).Nodup)
    (hpre : ∀ m ∈ pre, recordsContain s m.name = true ∨ env.up m.filename = true)
    (hpend : recordsContain s mf.name = false)
    (hfresh : ∀ m ∈ pre, m.name ≠ mf.name)
    (hfail : env.up mf.filename = false) :
    (runMigrations env s).res = .error (.upFailed mf.name) ∧
    (∀ m ∈ post, Event.up m.filename ∉ (runMigrations env s).events) ∧
    (∀ m ∈ pre, recordsContain (runMigrations env s).store m.name = true) ∧
    recordsContain (runMigrations env s).store mf.name = false := by
  subst hsplit
  obtain ⟨hres, ⟨evs, hevseq, hevsin⟩, hpre', hmf'⟩ :=
    runLoop_failure env mf post hfail pre s none 0 hT hC hpre hpend hfresh
      (fun b h => by cases h)
  rw [runMigrations_reduce env s hT (pre ++ mf :: post) hms, hres]
  dsimp only
  rw [List.map_append, List.map_cons] at hnodup
  obtain ⟨-, hnodup2, hdisj⟩ := List.nodup_append.mp hnodup
  have hmfpost : mf.filename ∉ post.map (fun m => m.filename) :=
    (List.nodup_cons.mp hnodup2).1
  refine ⟨rfl, ?_, hpre', hmf'⟩
  intro m hm hmem
  rw [hevseq] at hmem
  rcases List.mem_append.mp hmem with hmem | hmem
  · obtain ⟨m', hm', heq⟩ := hevsin _ hmem
    have hfe : m'.filename = m.filename := by
      injection heq.symm
    exact hdisj (List.mem_map_of_mem _ hm')
      (by rw [hfe]; exact List.mem_cons_of_mem _ (List.mem_map_of_mem _ hm))
  · have : Event.up m.filename = Event.up mf.filename := List.mem_singleton.mp hmem
    have hfe : m.filename = mf.filename := by injection this
    exact hmfpost (hfe ▸ List.mem_map_of_mem _ hm)

/-- A two-file environment: migration `a` whose forward succeeds, then
migration `b` whose forward fails; all backward operations succeed. -/
def wEnvAB : Env :=
  { dirExists := true,
    files := ["20250101T000000_a.ts", "20250102T000000_b.ts"],
    up := fun f => f != "20250102T000000_b.ts",
    down := fun _ => true }

/-- An empty, fully-initialised ledger store. -/
def wStore0 : Store :=
  { tableExists := true, hasBatchColumn := true, records := [], clock := 0 }

def wFileA : MigrationFile := ⟨"20250101T000000_a.ts", "20250101T000000", "a"⟩

def wFileB : MigrationFile := ⟨"20250102T000000_b.ts", "20250102T000000", "b"⟩

/-- Witness for C1: on `[a, b]` with `a` succeeding and `b`'s forward
failing, the failure propagates, `a` is recorded and `b` is not. -/
theorem runMigrations_partial_failure_witness :
    (runMigrations wEnvAB wStore0).res = .error (.upFailed "b") ∧
    recordsContain (runMigrations wEnvAB wStore0).store "a" = true ∧
    recordsContain (runMigrations wEnvAB wStore0).store "b" = false := by
  have h := runMigrations_partial_failure wEnvAB wStore0 [wFileA, wFileB] [wFileA] [] wFileB
    (by decide) (by decide) (by decide) rfl (by decide) (by decide) (by decide)
    (by decide) (by decide)
  exact ⟨h.1, h.2.2.1 wFileA (by decide), h.2.2.2⟩

theorem getNextBatchNumber_eq (s : Store) (hT : s.tableExists = true)
    (hC : s.hasBatchColumn = true) :
    getNextBatchNumber s = .ok (maxBatch s.records + 1) := by
  simp [getNextBatchNumber, hT, hC]

theorem executeMigration_res_true_inv (env : Env) (s : Store) (m : MigrationFile)
    (hT : s.tableExists = true) (h : (executeMigration env s m).res = .ok true) :
    recordsContain s m.name = false ∧ env.up m.filename = true := by
  cases happ : recordsContain s m.name with
  | true => rw [executeMigration_applied env s m hT happ] at h; cases h
  | false =>
    cases hup : env.up m.filename with
    | true => exact ⟨rfl, rfl⟩
    | false => rw [executeMigration_pending_fail env s m hT happ hup] at h; cases h

/-- All records appended by the loop when the batch number is already fixed
at `b` carry batch `b`, and a successful loop's counter counts them. -/
theorem runLoop_new_records_some (env : Env) (ms : List MigrationFile) :
    ∀ (s : Store) (c b : Nat), s.tableExists = true → s.hasBatchColumn = true →
      b ≠ 0 →
      ∃ new, (runLoop env ms s (some b) c).store.records = s.records ++ new ∧
        (∀ r ∈ new, r.batch = b) ∧
        (∀ n, (runLoop env ms s (some b) c).res = .ok n → n = c + new.length) := by
  induction ms with
  | nil =>
    intro s c b _ _ _
    refine ⟨[], by simp [runLoop], by simp, fun n h => ?_⟩
    simp [runLoop] at h
    simp [h]
  | cons m ms ih =>
    intro s c b hT hC hb
    simp only [runLoop]
    cases hres : (executeMigration env s m).res with
    | error err => exact ⟨[], by simp, by simp, fun n h => by simp at h⟩
    | ok wasExec =>
      cases wasExec with
      | false =>
        obtain ⟨new, h1, h2, h3⟩ := ih s c b hT hC hb
        exact ⟨new, by simpa using h1, h2, fun n h => h3 n (by simpa using h)⟩
      | true =>
        have hpend := (executeMigration_res_true_inv env s m hT hres).1
        dsimp only
        rw [markMigrationExecuted_ok_eq s m.name b hT hC hb]
        dsimp only
        have hTi : (insertIfAbsent s m.name b).tableExists = true := by
          rw [insertIfAbsent_tableExists]; exact hT
        have hCi : (insertIfAbsent s m.name b).hasBatchColumn = true := by
          rw [insertIfAbsent_hasBatchColumn]; exact hC
        obtain ⟨new, h1, h2, h3⟩ := ih (insertIfAbsent s m.name b) (c + 1) b hTi hCi hb
        have hins : (insertIfAbsent s m.name b).records =
            s.records ++ [{ name := m.name, executedAt := s.clock, batch := b }] := by
          unfold insertIfAbsent
          rw [hpend]
          simp
        refine ⟨{ name := m.name, executedAt := s.clock, batch := b } :: new, ?_, ?_, ?_⟩
        · rw [h1, hins]; simp
        · intro r hr
          rcases List.mem_cons.mp hr with rfl | hr
          · rfl
          · exact h2 r hr
        · intro n h
          have := h3 n h
          simp [this]
          omega

/-- All records appended by one `runMigrations` loop starting with no batch
number carry batch `maxBatch s.records + 1`, and a successful loop's counter
counts them. -/
theorem runLoop_new_records_none (env : Env) (ms : List MigrationFile) :
    ∀ (s : Store) (c : Nat), s.tableExists = true → s.hasBatchColumn = true →
      ∃ new, (runLoop env ms s none c).store.records = s.records ++ new ∧
        (∀ r ∈ new, r.batch = maxBatch s.records + 1) ∧
        (∀ n, (runLoop env ms s none c).res = .ok n → n = c + new.length) := by
  induction ms with
  | nil =>
    intro s c _ _
    refine ⟨[], by simp [runLoop], by simp, fun n h => ?_⟩
    simp [runLoop] at h
    simp [h]
  | cons m ms ih =>
    intro s c hT hC
    simp only [runLoop]
    cases hres : (executeMigration env s m).res with
    | error err => exact ⟨[], by simp, by simp, fun n h => by simp at h⟩
    | ok wasExec =>
      cases wasExec with
      | false =>
        obtain ⟨new, h1, h2, h3⟩ := ih s c hT hC
        exact ⟨new, by simpa using h1, h2, fun n h => h3 n (by simpa using h)⟩
      | true =>
        have hpend := (executeMigration_res_true_inv env s m hT hres).1
        dsimp only
        rw [getNextBatchNumber_eq s hT hC]
        dsimp only
        rw [markMigrationExecuted_ok_eq s m.name (maxBatch s.records + 1) hT hC
          (Nat.succ_ne_zero _)]
        dsimp only
        have hTi : (insertIfAbsent s m.name (maxBatch s.records + 1)).tableExists = true := by
          rw [insertIfAbsent_tableExists]; exact hT
        have hCi : (insertIfAbsent s m.name (maxBatch s.records + 1)).hasBatchColumn = true := by
          rw [insertIfAbsent_hasBatchColumn]; exact hC
        obtain ⟨new, h1, h2, h3⟩ := runLoop_new_records_some env ms
          (insertIfAbsent s m.name (maxBatch s.records + 1)) (c + 1)
          (maxBatch s.records + 1) hTi hCi (Nat.succ_ne_zero _)
        have hins : (insertIfAbsent s m.name (maxBatch s.records + 1)).records =
            s.records ++
              [{ name := m.name, executedAt := s.clock, batch := maxBatch s.records + 1 }] := by
          unfold insertIfAbsent
          rw [hpend]
          simp
        refine ⟨{ name := m.name, executedAt := s.clock,
                  batch := maxBatch s.records + 1 } :: new, ?_, ?_, ?_⟩
        · rw [h1, hins]; simp
        · intro r hr
          rcases List.mem_cons.mp hr with rfl | hr
          · rfl
          · exact h2 r hr
        · intro n h
          have := h3 n h
          simp [this]
          omega

/-- C2 (amended): every record newly inserted by one `runMigrations()`
invocation carries the batch number `maxBatch s.records + 1` (the maximum
batch in the ledger before the invocation, plus one; `1` on an empty ledger),
and an invocation that completes without error and newly applies nothing
reports `Nothing to migrate`. -/
theorem runMigrations_batch_grouping (env : Env) (s : Store)
    (hT : s.tableExists = true) (hC : s.hasBatchColumn = true) :
    ∃ new, (runMigrations env s).store.records = s.records ++ new ∧
      (∀ r ∈ new, r.batch = maxBatch s.records + 1) ∧
      ((runMigrations env s).res = .ok () → new = [] →
        "Nothing to migrate" ∈ (runMigrations env s).logs) := by
  cases hms : getMigrationFiles env with
  | error e =>
    refine ⟨[], ?_, by simp, ?_⟩
    · unfold runMigrations
      rw [hms, hT]
      simp
    · unfold runMigrations
      rw [hms, hT]
      intro h
      cases h
  | ok ms =>
    rw [runMigrations_reduce env s hT ms hms]
    obtain ⟨new, h1, h2, h3⟩ := runLoop_new_records_none env ms s 0 hT hC
    cases hres : (runLoop env ms s none 0).res with
    | error e =>
      refine ⟨new, by simpa using h1, h2, ?_⟩
      intro h
      simp at h
    | ok n =>
      refine ⟨new, by simpa using h1, h2, ?_⟩
      intro _ hnew
      have hn : n = 0 := by
        have := h3 n hres
        simp [hnew] at this
        exact this
      subst hn
      simp

/-- A one-file environment whose single migration's forward operation fails. -/
def wEnvFailOnly : Env :=
  { dirExists := true,
    files := ["20250101T000000_a.ts"],
    up := fun _ => false,
    down := fun _ => true }

/-- Counterexample to C2 as stated: an invocation whose only pending
migration's forward fails newly applies nothing (the ledger is unchanged),
yet does not report `Nothing to migrate` — it reports the failure instead. -/
theorem runMigrations_nothing_report_counterexample :
    (runMigrations wEnvFailOnly wStore0).store.records = wStore0.records ∧
    "Nothing to migrate" ∉ (runMigrations wEnvFailOnly wStore0).logs := by
  decide

/-- A ledger already holding one record in batch 2. -/
def wStoreB2 : Store :=
  { tableExists := true, hasBatchColumn := true,
    records := [{ name := "z", executedAt := 0, batch := 2 }], clock := 1 }

/-- Witness for C2 (amended), at a prior ledger with maximum batch 2. -/
theorem runMigrations_batch_grouping_witness :
    ∃ new, (runMigrations wEnvAB wStoreB2).store.records = wStoreB2.records ++ new ∧
      (∀ r ∈ new, r.batch = maxBatch wStoreB2.records + 1) ∧
      ((runMigrations wEnvAB wStoreB2).res = .ok () → new = [] →
        "Nothing to migrate" ∈ (runMigrations wEnvAB wStoreB2).logs) :=
  runMigrations_batch_grouping wEnvAB wStoreB2 (by decide) (by decide)

theorem executeMigration_res_false_inv (env : Env) (s : Store) (m : MigrationFile)
    (h : (executeMigration env s m).res = .ok false) :
    recordsContain s m.name = true := by
  unfold executeMigration isMigrationExecuted at h
  cases hTE : s.tableExists with
  | false => rw [hTE] at h; simp at h
  | true =>
    rw [hTE] at h
    cases hrc : recordsContain s m.name with
    | true => rfl
    | false =>
      rw [hrc] at h
      cases hup : env.up m.filename with
      | true => simp [hup] at h
      | false => simp [hup] at h

theorem createMigrationsTable_flags (s : Store) :
    (createMigrationsTable s).1.tableExists = true ∧
    (createMigrationsTable s).1.hasBatchColumn = true := by
  unfold createMigrationsTable
  cases hTE : s.tableExists <;> cases hBC : s.hasBatchColumn <;> simp [hTE, hBC]

theorem runLoop_all_applied (env : Env) (ms : List MigrationFile) :
    ∀ (s : Store) (b? : Option Nat) (c : Nat) (n : Nat),
      (runLoop env ms s b? c).res = .ok n →
      ∀ m ∈ ms, recordsContain (runLoop env ms s b? c).store m.name = true := by
  induction ms with
  | nil => intro s b? c n _ m hm; cases hm
  | cons m0 ms ih =>
    intro s b? c n h m hm
    cases hres : (executeMigration env s m0).res with
    | error err => simp [runLoop, hres] at h
    | ok wasExec =>
      cases wasExec with
      | false =>
        simp only [runLoop, hres] at h ⊢
        have happ := executeMigration_res_false_inv env s m0 hres
        rcases List.mem_cons.mp hm with rfl | hm
        · exact runLoop_recordsContain_mono env ms s b? c m.name happ
        · exact ih s b? c n h m hm
      | true =>
        cases hnb : (match b? with
                      | some b => (Except.ok b : Except MigErr Nat)
                      | none => getNextBatchNumber s) with
        | error e => simp [runLoop, hres, hnb] at h
        | ok b =>
          cases hmk : markMigrationExecuted s m0.name (some b) with
          | error e => simp [runLoop, hres, hnb, hmk] at h
          | ok s' =>
            simp only [runLoop, hres, hnb, hmk] at h ⊢
            obtain ⟨b', rfl⟩ := markMigrationExecuted_ok_shape s m0.name (some b) s' hmk
            rcases List.mem_cons.mp hm with rfl | hm
            · exact runLoop_recordsContain_mono env ms _ (some b) (c + 1) m.name
                (recordsContain_insertIfAbsent_self s m.name b')
            · exact ih _ (some b) (c + 1) n h m hm

theorem runLoop_noop (env : Env) (ms : List MigrationFile) :
    ∀ (s : Store) (b? : Option Nat) (c : Nat),
      s.tableExists = true →
      (∀ m ∈ ms, recordsContain s m.name = true) →
      runLoop env ms s b? c = ⟨.ok c, s, [], []⟩ := by
  induction ms with
  | nil => intro s b? c _ _; rfl
  | cons m ms ih =>
    intro s b? c hT hall
    simp only [runLoop]
    rw [executeMigration_applied env s m hT (hall m (List.mem_cons_self m ms))]
    dsimp only
    rw [ih s b? c hT (fun m' hm' => hall m' (List.mem_cons_of_mem m hm'))]
    rfl

/-- A successful `runMigrations()` leaves the table in place and every
discovered migration recorded. -/
theorem runMigrations_ok_inv (env : Env) (s : Store)
    (h : (runMigrations env s).res = .ok ()) :
    (runMigrations env s).store.tableExists = true ∧
    ∃ ms, getMigrationFiles env = .ok ms ∧
      ∀ m ∈ ms, recordsContain (runMigrations env s).store m.name = true := by
  have hs1T : (if s.tableExists then (s, ([] : List String))
      else createMigrationsTable s).1.tableExists = true := by
    cases hTE : s.tableExists with
    | true => simp [hTE]
    | false => simpa [hTE] using (createMigrationsTable_flags s).1
  unfold runMigrations at h ⊢
  cases hms : getMigrationFiles env with
  | error e => simp [hms] at h
  | ok ms =>
    dsimp only at h ⊢
    cases hres : (runLoop env ms
        (if s.tableExists then (s, ([] : List String)) else createMigrationsTable s).1
        none 0).res with
    | error e => simp [hms, hres] at h
    | ok n =>
      simp only [hms, hres] at h ⊢
      refine ⟨?_, ms, rfl, ?_⟩
      · rw [(runLoop_store_flags env ms _ none 0).1]
        exact hs1T
      · exact runLoop_all_applied env ms _ none 0 n hres

/-- C3: immediately re-running `runMigrations()` after a successful run, with
the same environment (no definitions added or removed), performs zero
forward/backward operations, leaves the store (ledger) unchanged, and reports
`Nothing to migrate`. -/
theorem runMigrations_idempotent (env : Env) (s : Store)
    (h1 : (runMigrations env s).res = .ok ()) :
    (runMigrations env (runMigrations env s).store).res = .ok () ∧
    (runMigrations env (runMigrations env s).store).store = (runMigrations env s).store ∧
    (runMigrations env (runMigrations env s).store).events = [] ∧
    "Nothing to migrate" ∈ (runMigrations env (runMigrations env s).store).logs := by
  obtain ⟨hT1, ms, hms, hall⟩ := runMigrations_ok_inv env s h1
  rw [runMigrations_reduce env (runMigrations env s).store hT1 ms hms]
  rw [runLoop_noop env ms (runMigrations env s).store none 0 hT1 hall]
  simp

/-- A two-file environment where every forward/backward operation succeeds. -/
def wEnvAllOk : Env :=
  { dirExists := true,
    files := ["20250101T000000_a.ts", "20250102T000000_b.ts"],
    up := fun _ => true,
    down := fun _ => true }

/-- Witness for C3: a successful run on two fresh migrations, then a re-run. -/
theorem runMigrations_idempotent_witness :
    (runMigrations wEnvAllOk wStore0).res = .ok () ∧
    (runMigrations wEnvAllOk (runMigrations wEnvAllOk wStore0).store).res = .ok () ∧
    (runMigrations wEnvAllOk (runMigrations wEnvAllOk wStore0).store).store =
      (runMigrations wEnvAllOk wStore0).store ∧
    (runMigrations wEnvAllOk (runMigrations wEnvAllOk wStore0).store).events = [] ∧
    "Nothing to migrate" ∈
      (runMigrations wEnvAllOk (runMigrations wEnvAllOk wStore0).store).logs := by
  have h := runMigrations_idempotent wEnvAllOk wStore0 (by decide)
  exact ⟨by decide, h.1, h.2.1, h.2.2.1, h.2.2.2⟩

/-- The filename of the discovered definition bearing a given name
(`migrationFiles.find(m => m.name === migrationName)` of the source). -/
def resolveFile (ms : List MigrationFile) (n : String) : String :=
  match ms.find? (fun m => m.name == n) with
  | some m => m.filename
  | none => ""

theorem mem_insertByExecDesc (r x : LedgerRecord) (l : List LedgerRecord) :
    x ∈ insertByExecDesc r l ↔ x = r ∨ x ∈ l := by
  induction l with
  | nil => simp [insertByExecDesc]
  | cons y ys ih =>
    unfold insertByExecDesc
    split
    · simp [or_comm, or_assoc, or_left_comm]
    · simp [ih]
      tauto

theorem mem_sortByExecDesc (x : LedgerRecord) (l : List LedgerRecord) :
    x ∈ sortByExecDesc l ↔ x ∈ l := by
  induction l with
  | nil => simp [sortByExecDesc]
  | cons y ys ih => simp [sortByExecDesc, mem_insertByExecDesc, ih]

/-- Reduction of the rollback primitive when the definition resolves and its
backward operation succeeds. -/
theorem rollbackSingleMigration_ok (env : Env) (s : Store) (n : String)
    (ms : List MigrationFile) (hms : getMigrationFiles env = .ok ms)
    (m : MigrationFile) (hfind : ms.find? (fun m2 => m2.name == n) = some m)
    (hdown : env.down m.filename = true) (hT : s.tableExists = true) :
    rollbackSingleMigration env s n =
      ⟨.ok (), { s with records := s.records.filter (fun r => r.name != n) },
       [.down m.filename], ["Rolling back: " ++ n, "Rolled back: " ++ n]⟩ := by
  unfold rollbackSingleMigration removeMigrationRecord
  rw [hms]
  dsimp only
  rw [hfind]
  dsimp only
  rw [hdown, hT]
  simp

/-- Newest-first loop: when every requested name resolves among the
discovered files and every backward operation succeeds, the loop succeeds and
its backward-invocation trace is exactly the requested order. -/
theorem rollbackLoop_resolved (env : Env) (ms : List MigrationFile)
    (hms : getMigrationFiles env = .ok ms)
    (hdownAll : ∀ m ∈ ms, env.down m.filename = true) :
    ∀ (names : List String) (s : Store),
      s.tableExists = true →
      (∀ n ∈ names, ∃ m ∈ ms, m.name = n) →
      (rollbackLoop env names s).res = .ok () ∧
      (rollbackLoop env names s).events =
        names.map (fun n => Event.down (resolveFile ms n)) ∧
      (rollbackLoop env names s).store.tableExists = true := by
  intro names
  induction names with
  | nil => exact fun s hT _ => ⟨rfl, rfl, hT⟩
  | cons n ns ih =>
    intro s hT hresolve
    obtain ⟨m0, hm0, hname0⟩ := hresolve n (List.mem_cons_self n ns)
    have hsome : (ms.find? (fun m2 => m2.name == n)).isSome :=
      List.find?_isSome.mpr ⟨m0, hm0, by simp [hname0]⟩
    obtain ⟨m, hfind⟩ := Option.isSome_iff_exists.mp hsome
    have hmem : m ∈ ms := List.mem_of_find?_eq_some hfind
    have hresolveEq : resolveFile ms n = m.filename := by
      unfold resolveFile
      rw [hfind]
    simp only [rollbackLoop]
    rw [rollbackSingleMigration_ok env s n ms hms m hfind (hdownAll m hmem) hT]
    dsimp only
    obtain ⟨ih1, ih2, ih3⟩ := ih { s with records := s.records.filter (fun r => r.name != n) }
      hT (fun n2 hn2 => hresolve n2 (List.mem_cons_of_mem n hn2))
    refine ⟨ih1, ?_, ih3⟩
    simp [List.map_cons, ih2, hresolveEq]

/-- C4: whenever `rollbackLastBatch()` or `rollbackAllMigrations()` rolls
back migrations (all of whose definitions resolve among the discovered files
and whose backward operations succeed), the backward operations are invoked
newest-applied-first: `rollbackLastBatch` walks the maximal batch in
descending `executedAt`, and `rollbackAllMigrations` walks all records in
descending `executedAt`, ignoring batch boundaries. -/
theorem rollback_newest_first (env : Env) (s : Store)
    (ms : List MigrationFile) (hms : getMigrationFiles env = .ok ms)
    (hT : s.tableExists = true) (hC : s.hasBatchColumn = true)
    (hrec : ∀ r ∈ s.records, ∃ m ∈ ms, m.name = r.name)
    (hdownAll : ∀ m ∈ ms, env.down m.filename = true) :
    (rollbackLastBatch env s).events =
      (sortByExecDesc (s.records.filter (fun r => r.batch == maxBatch s.records))).map
        (fun r => Event.down (resolveFile ms r.name)) ∧
    (rollbackAllMigrations env s).events =
      (sortByExecDesc s.records).map (fun r => Event.down (resolveFile ms r.name)) := by
  constructor
  · cases hns : (sortByExecDesc (s.records.filter
        (fun r => r.batch == maxBatch s.records))).map (fun r => r.name) with
    | nil =>
      have hnil : sortByExecDesc (s.records.filter
          (fun r => r.batch == maxBatch s.records)) = [] := by
        cases hl : sortByExecDesc (s.records.filter
            (fun r => r.batch == maxBatch s.records)) with
        | nil => rfl
        | cons x xs => rw [hl] at hns; cases hns
      simp [rollbackLastBatch, getLastBatch, hT, hC, hns, hnil]
    | cons n ns =>
      have hsub : ∀ r ∈ sortByExecDesc (s.records.filter
          (fun r => r.batch == maxBatch s.records)), r ∈ s.records := by
        intro r hr
        exact (List.mem_filter.mp ((mem_sortByExecDesc r _).mp hr)).1
      have hresolve : ∀ nm ∈ (n :: ns), ∃ m ∈ ms, m.name = nm := by
        rw [← hns]
        intro nm hnm
        obtain ⟨r, hr, hr2⟩ := List.mem_map.mp hnm
        exact hr2 ▸ hrec r (hsub r hr)
      obtain ⟨lres, levents, -⟩ :=
        rollbackLoop_resolved env ms hms hdownAll (n :: ns) s hT hresolve
      simp only [rollbackLastBatch, getLastBatch, hT, hC, hns, if_true]
      rw [lres]
      dsimp only
      rw [levents, ← hns, List.map_map]
      simp [Function.comp]
  · cases hns : (sortByExecDesc s.records).map (fun r => r.name) with
    | nil =>
      have hnil : sortByExecDesc s.records = [] := by
        cases hl : sortByExecDesc s.records with
        | nil => rfl
        | cons x xs => rw [hl] at hns; cases hns
      simp [rollbackAllMigrations, getExecutedMigrations, hT, hns, hnil]
    | cons n ns =>
      have hsub : ∀ r ∈ sortByExecDesc s.records, r ∈ s.records := by
        intro r hr
        exact (mem_sortByExecDesc r _).mp hr
      have hresolve : ∀ nm ∈ (n :: ns), ∃ m ∈ ms, m.name = nm := by
        rw [← hns]
        intro nm hnm
        obtain ⟨r, hr, hr2⟩ := List.mem_map.mp hnm
        exact hr2 ▸ hrec r (hsub r hr)
      obtain ⟨lres, levents, -⟩ :=
        rollbackLoop_resolved env ms hms hdownAll (n :: ns) s hT hresolve
      simp only [rollbackAllMigrations, getExecutedMigrations, hT, hns, if_true]
      rw [lres]
      dsimp only
      rw [levents, ← hns, List.map_map]
      simp [Function.comp]

/-- Three migrations applied in order a, b, c, all in batch 1, with all
backward operations succeeding. -/
def wEnv3 : Env :=
  { dirExists := true,
    files := ["20250101T000000_a.ts", "20250102T000000_b.ts", "20250103T000000_c.ts"],
    up := fun _ => true,
    down := fun _ => true }

def wStore3 : Store :=
  { tableExists := true, hasBatchColumn := true,
    records := [{ name := "a", executedAt := 0, batch := 1 },
                { name := "b", executedAt := 1, batch := 1 },
                { name := "c", executedAt := 2, batch := 1 }],
    clock := 3 }

/-- Witness for C4: with [a, b, c] applied in that order in one batch, both
rollback entry points invoke the backward operations in order [c, b, a]. -/
theorem rollback_newest_first_witness :
    (rollbackLastBatch wEnv3 wStore3).events =
      [Event.down "20250103T000000_c.ts", Event.down "20250102T000000_b.ts",
       Event.down "20250101T000000_a.ts"] ∧
    (rollbackAllMigrations wEnv3 wStore3).events =
      [Event.down "20250103T000000_c.ts", Event.down "20250102T000000_b.ts",
       Event.down "20250101T000000_a.ts"] := by
  have h := rollback_newest_first wEnv3 wStore3
    [⟨"20250101T000000_a.ts", "20250101T000000", "a"⟩,
     ⟨"20250102T000000_b.ts", "20250102T000000", "b"⟩,
     ⟨"20250103T000000_c.ts", "20250103T000000", "c"⟩]
    (by decide) (by decide) (by decide) (by decide) (by decide)
  exact ⟨h.1.trans (by decide), h.2.trans (by decide)⟩

/-! ### Discovery pattern (claim C5) -/

/-- A character of the character class `[A-Za-z0-9_]`. -/
def isSlugChar (c : Char) : Bool :=
  (decide ('A' ≤ c) && decide (c ≤ 'Z')) ||
  (decide ('a' ≤ c) && decide (c ≤ 'z')) ||
  (decide ('0' ≤ c) && decide (c ≤ '9')) || c == '_'

/-- Modelled from the spec: the required filename pattern
`^\d{8}T\d{6}_[A-Za-z0-9_]+\.(ts|js)$` (`(ext)` instantiated to the two
extensions the engine handles), against which claim C5 says every directory
entry is checked. -/
def specPattern (filename : String) : Bool :=
  let cs := filename.data
  ((cs.take 8).length == 8 && (cs.take 8).all Char.isDigit) &&
  (match cs.drop 8 with
   | 'T' :: rest1 =>
     ((rest1.take 6).length == 6 && (rest1.take 6).all Char.isDigit) &&
     (match rest1.drop 6 with
      | '_' :: rest =>
        decide (4 ≤ rest.length) &&
        (rest.take (rest.length - 3)).all isSlugChar &&
        (rest.drop (rest.length - 3) == ['.', 't', 's'] ||
         rest.drop (rest.length - 3) == ['.', 'j', 's'])
      | _ => false)
   | _ => false)

theorem parseAllFiles_error_iff (l : List String) :
    (∃ e, parseAllFiles l = .error e) ↔ ∃ f ∈ l, parseMigrationFile f = none := by
  induction l with
  | nil => simp [parseAllFiles]
  | cons f fs ih =>
    unfold parseAllFiles
    cases hp : parseMigrationFile f with
    | none => simp [hp]
    | some m =>
      have hstep : (∃ e, (match parseAllFiles fs with
            | .error e => (.error e : Except MigErr (List MigrationFile))
            | .ok ms2 => .ok (m :: ms2)) = .error e) ↔
          ∃ e, parseAllFiles fs = .error e := by
        cases hr : parseAllFiles fs <;> simp
      rw [hstep, ih]
      simp [hp]

theorem mem_insertSorted (x y : String) (l : List String) :
    y ∈ insertSorted x l ↔ y = x ∨ y ∈ l := by
  induction l with
  | nil => simp [insertSorted]
  | cons z zs ih =>
    unfold insertSorted
    split
    · simp [or_comm, or_assoc, or_left_comm]
    · simp [ih]
      tauto

theorem mem_sortFiles (y : String) (l : List String) :
    y ∈ sortFiles l ↔ y ∈ l := by
  induction l with
  | nil => simp [sortFiles]
  | cons z zs ih => simp [sortFiles, mem_insertSorted, ih]

/-- C5 (amended): Discovery first restricts the listing to entries ending in
`.ts` or `.js`; it fails — for the entire scan, returning no partial
sequence — exactly when one of those entries fails the code pattern
`^\d{8}T\d{6}_(.+)\.(ts|js)$` (whose slug part is any nonempty string free
of the four ECMAScript line terminators, not only `[A-Za-z0-9_]+`); entries
with other extensions are silently ignored and never cause failure. -/
theorem getMigrationFiles_error_iff (env : Env) (hd : env.dirExists = true) :
    (∃ e, getMigrationFiles env = .error e) ↔
      ∃ f ∈ env.files, (hasSuffix f ".ts" || hasSuffix f ".js") = true ∧
        parseMigrationFile f = none := by
  unfold getMigrationFiles
  rw [hd]
  rw [if_pos rfl, parseAllFiles_error_iff]
  constructor
  · rintro ⟨f, hf, hp⟩
    rw [mem_sortFiles] at hf
    obtain ⟨hfmem, hsuf⟩ := List.mem_filter.mp hf
    exact ⟨f, hfmem, hsuf, hp⟩
  · rintro ⟨f, hf, hsuf, hp⟩
    exact ⟨f, (mem_sortFiles f _).mpr (List.mem_filter.mpr ⟨hf, hsuf⟩), hp⟩

/-- Counterexample to C5 as stated: the entry `notes.txt` fails the required
pattern yet Discovery succeeds, ignoring it (no failure, empty sequence);
and `20250101T000000_foo-bar.ts` fails the pattern (hyphen in the slug) yet
Discovery accepts it as a definition. -/
theorem discovery_pattern_counterexample :
    specPattern "notes.txt" = false ∧
    getMigrationFiles { dirExists := true, files := ["notes.txt"],
                        up := fun _ => true, down := fun _ => true } = .ok [] ∧
    specPattern "20250101T000000_foo-bar.ts" = false ∧
    getMigrationFiles { dirExists := true, files := ["20250101T000000_foo-bar.ts"],
                        up := fun _ => true, down := fun _ => true } =
      .ok [{ filename := "20250101T000000_foo-bar.ts",
             timestamp := "20250101T000000", name := "foo-bar" }] := by
  decide

/-- Witness for C5 (amended): a listing with a malformed `.ts` entry makes
the whole scan fail; so does one whose slug contains a carriage return
(`.` in the JS regex does not match a line terminator). -/
theorem getMigrationFiles_error_iff_witness :
    (∃ e, getMigrationFiles { dirExists := true, files := ["bad.ts", "readme.md"],
                              up := fun _ => true, down := fun _ => true } = .error e) ∧
    (∃ e, getMigrationFiles { dirExists := true, files := ["20250101T000000_a\rb.ts"],
                              up := fun _ => true, down := fun _ => true } = .error e) :=
  ⟨(getMigrationFiles_error_iff _ rfl).mpr ⟨"bad.ts", by decide, by decide, by decide⟩,
   (getMigrationFiles_error_iff _ rfl).mpr
     ⟨"20250101T000000_a\rb.ts", by decide, by decide, by decide⟩⟩

/-! ### Claim C6: pre-existing table without the batch column -/

/-- A pre-existing installation: the ledger table exists with one legacy row
but the `batch` column is missing. -/
def wLegacyStore : Store :=
  { tableExists := true, hasBatchColumn := false,
    records := [{ name := "legacy", executedAt := 0, batch := 0 }], clock := 1 }

/-- C6, the code evaluated at the failing input: on a store whose table
exists but lacks the `batch` column, `runMigrations()` never calls
`createMigrationsTable` (the guard runs it only when the table is absent),
so the column is not added and the batch look-up for the first newly applied
migration fails — even though `createMigrationsTable` itself, had it been
called, would have added the column and back-filled all rows to batch 1. -/
theorem runMigrations_legacy_store_bug :
    (runMigrations wEnvAllOk wLegacyStore).res = .error .missingBatchColumn ∧
    (runMigrations wEnvAllOk wLegacyStore).store.hasBatchColumn = false ∧
    (createMigrationsTable wLegacyStore).1.hasBatchColumn = true ∧
    (createMigrationsTable wLegacyStore).1.records.all (fun r => r.batch == 1) = true := by
  decide

/-! ### Claim C7: rollback of a name not recorded in the ledger -/

/-- Counterexample to C7 as stated: for a name absent from the ledger whose
definition file exists, the internal primitive succeeds and invokes the
backward operation — it does not fail with a hard not-applied error. -/
theorem rollbackSingle_not_applied_counterexample :
    recordsContain wStore0 "a" = false ∧
    (rollbackSingleMigration wEnvAllOk wStore0 "a").res = .ok () ∧
    (rollbackSingleMigration wEnvAllOk wStore0 "a").events =
      [Event.down "20250101T000000_a.ts"] := by
  decide

/-- C7 (amended): when rollback is requested for a name not currently
recorded in the Ledger, `rollbackSpecificMigration(name)` reports a soft
"was not executed or not found" message and returns without error, without
invoking any backward operation and without modifying the store; the
internal primitive `rollbackSingleMigration(name)` performs no ledger check:
it fails hard only when no discovered definition bears the name, and
otherwise invokes the backward operation even though no ledger record
exists. -/
theorem rollbackSpecific_not_applied (env : Env) (s : Store) (name : String)
    (hT : s.tableExists = true) (hnot : recordsContain s name = false)
    (ms : List MigrationFile) (hms : getMigrationFiles env = .ok ms) :
    (rollbackSpecificMigration env s name).res = .ok () ∧
    (rollbackSpecificMigration env s name).store = s ∧
    (rollbackSpecificMigration env s name).events = [] ∧
    ("Migration " ++ name ++ " was not executed or not found") ∈
      (rollbackSpecificMigration env s name).logs ∧
    (ms.find? (fun m2 => m2.name == name) = none →
      (rollbackSingleMigration env s name).res = .error (.migrationNotFound name) ∧
      (rollbackSingleMigration env s name).events = []) ∧
    (∀ m, ms.find? (fun m2 => m2.name == name) = some m →
      (rollbackSingleMigration env s name).events = [Event.down m.filename] ∧
      (env.down m.filename = true → (rollbackSingleMigration env s name).res = .ok ())) := by
  have hmem : name ∉ (sortByExecDesc s.records).map (fun r => r.name) := by
    intro hmem
    obtain ⟨r, hr, hrname⟩ := List.mem_map.mp hmem
    have hrmem : r ∈ s.records := (mem_sortByExecDesc r _).mp hr
    have : recordsContain s name = true := by
      unfold recordsContain
      exact List.any_eq_true.mpr ⟨r, hrmem, by simp [hrname]⟩
    rw [this] at hnot
    cases hnot
  have hnc : ((sortByExecDesc s.records).map (fun r => r.name)).contains name = false := by
    simpa using hmem
  have hspec : rollbackSpecificMigration env s name =
      ⟨.ok (), s, [], ["Migration " ++ name ++ " was not executed or not found"]⟩ := by
    simp [rollbackSpecificMigration, getExecutedMigrations, hT, hnc]
    intro x hx hxname
    exact absurd (List.mem_map.mpr ⟨x, hx, hxname⟩) hmem
  refine ⟨by rw [hspec], by rw [hspec], by rw [hspec], by rw [hspec]; simp, ?_, ?_⟩
  · intro hfind
    unfold rollbackSingleMigration
    rw [hms]
    try dsimp only
    rw [hfind]
    exact ⟨rfl, rfl⟩
  · intro m hfind
    cases hdn : env.down m.filename with
    | true =>
      rw [rollbackSingleMigration_ok env s name ms hms m hfind hdn hT]
      exact ⟨rfl, fun _ => rfl⟩
    | false =>
      unfold rollbackSingleMigration
      rw [hms]
      try dsimp only
      rw [hfind]
      try dsimp only
      rw [hdn]
      try dsimp only
      exact ⟨rfl, fun h => absurd h (by simp)⟩

/-- Witness for C7 (amended). -/
theorem rollbackSpecific_not_applied_witness :
    (rollbackSpecificMigration wEnvAllOk wStore0 "a").res = .ok () ∧
    (rollbackSpecificMigration wEnvAllOk wStore0 "a").events = [] ∧
    (rollbackSingleMigration wEnvAllOk wStore0 "a").events =
      [Event.down "20250101T000000_a.ts"] := by
  have h := rollbackSpecific_not_applied wEnvAllOk wStore0 "a" (by decide) (by decide)
    [{ filename := "20250101T000000_a.ts", timestamp := "20250101T000000", name := "a" },
     { filename := "20250102T000000_b.ts", timestamp := "20250102T000000", name := "b" }]
    (by decide)
  exact ⟨h.1, h.2.2.1,
    (h.2.2.2.2.2
      { filename := "20250101T000000_a.ts", timestamp := "20250101T000000", name := "a" }
      (by decide)).1⟩

/-! ### Claim C8: record removed only after backward succeeds -/

/-- C8: in the rollback primitive for a resolvable name, the ledger record
is removed only after the backward operation succeeds; if the backward
operation fails, the failure propagates and the store — in particular the
ledger record — is left fully intact. -/
theorem rollbackSingle_removes_only_after_success (env : Env) (s : Store)
    (name : String) (hT : s.tableExists = true) (ms : List MigrationFile)
    (hms : getMigrationFiles env = .ok ms)
    (m : MigrationFile) (hfind : ms.find? (fun m2 => m2.name == name) = some m) :
    (env.down m.filename = false →
      (rollbackSingleMigration env s name).res = .error (.downFailed name) ∧
      (rollbackSingleMigration env s name).store = s) ∧
    (env.down m.filename = true →
      (rollbackSingleMigration env s name).res = .ok () ∧
      (rollbackSingleMigration env s name).store.records =
        s.records.filter (fun r => r.name != name)) := by
  constructor
  · intro hdn
    unfold rollbackSingleMigration
    rw [hms]
    try dsimp only
    rw [hfind]
    try dsimp only
    rw [hdn]
    exact ⟨rfl, rfl⟩
  · intro hdn
    rw [rollbackSingleMigration_ok env s name ms hms m hfind hdn hT]
    exact ⟨rfl, rfl⟩

/-- One applied migration `a` whose backward operation fails. -/
def wEnvDownFail : Env :=
  { dirExists := true,
    files := ["20250101T000000_a.ts"],
    up := fun _ => true,
    down := fun _ => false }

def wStoreA : Store :=
  { tableExists := true, hasBatchColumn := true,
    records := [{ name := "a", executedAt := 0, batch := 1 }], clock := 1 }

/-- Witness for C8: a failing backward operation propagates and leaves the
record (the whole store) intact. -/
theorem rollbackSingle_removes_only_after_success_witness :
    (rollbackSingleMigration wEnvDownFail wStoreA "a").res = .error (.downFailed "a") ∧
    (rollbackSingleMigration wEnvDownFail wStoreA "a").store = wStoreA := by
  have h := rollbackSingle_removes_only_after_success wEnvDownFail wStoreA "a"
    (by decide)
    [{ filename := "20250101T000000_a.ts", timestamp := "20250101T000000", name := "a" }]
    (by decide)
    { filename := "20250101T000000_a.ts", timestamp := "20250101T000000", name := "a" }
    (by decide)
  exact ⟨(h.1 (by decide)).1, (h.1 (by decide)).2⟩

/-! ### Claim C9: refresh = rollback-all then run -/

theorem rollbackSingleMigration_events_down (env : Env) (s : Store) (n : String) :
    ∀ e ∈ (rollbackSingleMigration env s n).events, ∃ f, e = Event.down f := by
  intro e h
  unfold rollbackSingleMigration at h
  split at h
  · simp at h
  · split at h
    · simp at h
    · split at h
      · split at h
        · simp at h
          exact ⟨_, h⟩
        · simp at h
          exact ⟨_, h⟩
      · simp at h
        exact ⟨_, h⟩

theorem rollbackLoop_events_down (env : Env) :
    ∀ (names : List String) (s : Store),
      ∀ e ∈ (rollbackLoop env names s).events, ∃ f, e = Event.down f := by
  intro names
  induction names with
  | nil => intro s e h; cases h
  | cons n ns ih =>
    intro s e h
    simp only [rollbackLoop] at h
    split at h
    · simp only at h
      exact rollbackSingleMigration_events_down env s n e h
    · simp only at h
      rcases List.mem_append.mp h with h2 | h2
      · exact rollbackSingleMigration_events_down env s n e h2
      · exact ih _ e h2

theorem rollbackAllMigrations_events_down (env : Env) (s : Store) :
    ∀ e ∈ (rollbackAllMigrations env s).events, ∃ f, e = Event.down f := by
  intro e h
  unfold rollbackAllMigrations at h
  split at h
  · split at h
    · simp at h
    · simp at h
    · dsimp only at h
      split at h
      · simp only at h
        exact rollbackLoop_events_down env _ s e h
      · simp only at h
        exact rollbackLoop_events_down env _ s e h
  · simp at h

/-- C9: `refreshMigrations()` is `rollbackAllMigrations()` followed by
`runMigrations()`: if the rollback-all phase fails, its failure propagates,
the final store and trace are those of the rollback-all phase, and no
forward operation is invoked by the refresh call; if the rollback-all phase
succeeds, refresh's result, store and trace are exactly those of running
`runMigrations()` from the rolled-back store, appended to the rollback
trace. -/
theorem refresh_equiv (env : Env) (s : Store) :
    (∀ e, (rollbackAllMigrations env s).res = .error e →
      (refreshMigrations env s).res = .error e ∧
      (refreshMigrations env s).store = (rollbackAllMigrations env s).store ∧
      (refreshMigrations env s).events = (rollbackAllMigrations env s).events ∧
      ∀ f, Event.up f ∉ (refreshMigrations env s).events) ∧
    ((rollbackAllMigrations env s).res = .ok () →
      (refreshMigrations env s).res =
        (runMigrations env (rollbackAllMigrations env s).store).res ∧
      (refreshMigrations env s).store =
        (runMigrations env (rollbackAllMigrations env s).store).store ∧
      (refreshMigrations env s).events =
        (rollbackAllMigrations env s).events ++
          (runMigrations env (rollbackAllMigrations env s).store).events) := by
  constructor
  · intro e he
    have hred : refreshMigrations env s =
        ⟨.error e, (rollbackAllMigrations env s).store,
         (rollbackAllMigrations env s).events,
         ["🔄 Refreshing migrations (rollback all + re-run)..."] ++
           (rollbackAllMigrations env s).logs ++ ["❌ Migration refresh failed"]⟩ := by
      unfold refreshMigrations
      dsimp only
      rw [he]
    rw [hred]
    refine ⟨rfl, rfl, rfl, ?_⟩
    intro f hf
    obtain ⟨f2, heq⟩ := rollbackAllMigrations_events_down env s _ hf
    cases heq
  · intro hok
    unfold refreshMigrations
    dsimp only
    rw [hok]
    try dsimp only
    cases hr2 : (runMigrations env (rollbackAllMigrations env s).store).res with
    | error e2 => simp [hr2]
    | ok u => cases u; simp [hr2]

/-- Witness for C9: from an empty ledger, rollback-all succeeds, and refresh
behaves as rollback-all followed by run. -/
theorem refresh_equiv_witness :
    (rollbackAllMigrations wEnvAllOk wStore0).res = .ok () ∧
    (refreshMigrations wEnvAllOk wStore0).res =
      (runMigrations wEnvAllOk (rollbackAllMigrations wEnvAllOk wStore0).store).res ∧
    (refreshMigrations wEnvAllOk wStore0).events =
      (rollbackAllMigrations wEnvAllOk wStore0).events ++
        (runMigrations wEnvAllOk (rollbackAllMigrations wEnvAllOk wStore0).store).events := by
  have h := (refresh_equiv wEnvAllOk wStore0).2 (by decide)
  exact ⟨by decide, h.1, h.2.2⟩

/-! ### Claim C10: behaviour when the ledger table does not exist -/

theorem runMigrations_store_tableExists (env : Env) (s : Store) :
    (runMigrations env s).store.tableExists = true := by
  have hs1T : (if s.tableExists then (s, ([] : List String))
      else createMigrationsTable s).1.tableExists = true := by
    cases hTE : s.tableExists with
    | true => simp [hTE]
    | false => simpa [hTE] using (createMigrationsTable_flags s).1
  unfold runMigrations
  cases hms : getMigrationFiles env with
  | error e => simpa using hs1T
  | ok ms =>
    try dsimp only
    cases hres : (runLoop env ms
        (if s.tableExists then (s, ([] : List String)) else createMigrationsTable s).1
        none 0).res with
    | error e =>
      simp only [hres]
      try dsimp only
      rw [(runLoop_store_flags env ms _ none 0).1]
      exact hs1T
    | ok n =>
      simp only [hres]
      try dsimp only
      rw [(runLoop_store_flags env ms _ none 0).1]
      exact hs1T

/-- C10: when the migrations ledger table does not exist, every rollback
entry point (`rollbackLastBatch`, `rollbackSteps`, `rollbackAllMigrations`,
`rollbackSpecificMigration`) and `showMigrationStatus` return successfully
without creating the table, without invoking any backward operation and
without modifying any state (the store is returned unchanged), while
`runMigrations()` does create the table. -/
theorem no_table_frame (env : Env) (s : Store) (steps : Nat) (name : String)
    (hT : s.tableExists = false) :
    ((rollbackLastBatch env s).res = .ok () ∧ (rollbackLastBatch env s).store = s ∧
      (rollbackLastBatch env s).events = []) ∧
    ((rollbackSteps env steps s).res = .ok () ∧ (rollbackSteps env steps s).store = s ∧
      (rollbackSteps env steps s).events = []) ∧
    ((rollbackAllMigrations env s).res = .ok () ∧
      (rollbackAllMigrations env s).store = s ∧
      (rollbackAllMigrations env s).events = []) ∧
    ((rollbackSpecificMigration env s name).res = .ok () ∧
      (rollbackSpecificMigration env s name).store = s ∧
      (rollbackSpecificMigration env s name).events = []) ∧
    ((showMigrationStatus s).res = .ok () ∧ (showMigrationStatus s).store = s ∧
      (showMigrationStatus s).events = []) ∧
    (runMigrations env s).store.tableExists = true := by
  refine ⟨?_, ?_, ?_, ?_, ?_, runMigrations_store_tableExists env s⟩
  · simp [rollbackLastBatch, hT]
  · simp [rollbackSteps, hT]
  · simp [rollbackAllMigrations, hT]
  · simp [rollbackSpecificMigration, hT]
  · simp [showMigrationStatus, hT]

/-- A store with no ledger table at all. -/
def wNoTableStore : Store :=
  { tableExists := false, hasBatchColumn := false, records := [], clock := 0 }

/-- Witness for C10. -/
theorem no_table_frame_witness :
    ((rollbackLastBatch wEnvAllOk wNoTableStore).res = .ok () ∧
      (rollbackLastBatch wEnvAllOk wNoTableStore).store = wNoTableStore ∧
      (rollbackLastBatch wEnvAllOk wNoTableStore).events = []) ∧
    ((rollbackSteps wEnvAllOk 2 wNoTableStore).res = .ok () ∧
      (rollbackSteps wEnvAllOk 2 wNoTableStore).store = wNoTableStore ∧
      (rollbackSteps wEnvAllOk 2 wNoTableStore).events = []) ∧
    ((rollbackAllMigrations wEnvAllOk wNoTableStore).res = .ok () ∧
      (rollbackAllMigrations wEnvAllOk wNoTableStore).store = wNoTableStore ∧
      (rollbackAllMigrations wEnvAllOk wNoTableStore).events = []) ∧
    ((rollbackSpecificMigration wEnvAllOk wNoTableStore "a").res = .ok () ∧
      (rollbackSpecificMigration wEnvAllOk wNoTableStore "a").store = wNoTableStore ∧
      (rollbackSpecificMigration wEnvAllOk wNoTableStore "a").events = []) ∧
    ((showMigrationStatus wNoTableStore).res = .ok () ∧
      (showMigrationStatus wNoTableStore).store = wNoTableStore ∧
      (showMigrationStatus wNoTableStore).events = []) ∧
    (runMigrations wEnvAllOk wNoTableStore).store.tableExists = true :=
  no_table_frame wEnvAllOk wNoTableStore 2 "a" (by decide)

end MigrationEngine
